import Mathlib

/-!
Verification of the progress-tracking core of a cyclic dataflow engine:
the Feedback (loop-closing) operator of `src/dataflow/operators/feedback.rs`
and the Input (external source) operator of `src/dataflow/operators/input.rs`,
together with the delta-ledger, counting-pusher and frontier bookkeeping they
rely on.  Rust interior mutability (`Rc<RefCell<...>>`) is embedded as explicit
state passing; the fallible `advance_to` (a Rust `assert!`) returns `Option`.
-/

namespace Timely

/-- A bundle of records all carrying one logical timestamp
(`dataflow::channels::Bundle`).  An end-of-stream slot is represented by
`none : Option (Bundle T D)`, mirroring the `&mut Option<Bundle<T, D>>`
signature of `Push::push`. -/
structure Bundle (T : Type) (D : Type) where
  time : T
  data : List D
deriving DecidableEq, Repr

/-- The timestamp/summary operations the Feedback operator is parameterized
over: `PathSummary::results_in` (partial timestamp advancement) and
`PartialOrder::less_equal`. -/
structure TimestampOps (T : Type) (S : Type) where
  less_equal : T → T → Bool
  results_in : S → T → Option T

/-- Modelled from the spec: the delta ledger (`progress::count_map::CountMap`
and `progress::ChangeBatch`, neither under `src/`): an ordered sequence of
(timestamp, signed delta) pairs, not immediately coalesced. -/
structure CountMap (T : Type) where
  updates : List (T × Int)
deriving DecidableEq, Repr

namespace CountMap

/-- A fresh, empty ledger (`CountMap::new` / `ChangeBatch::new`). -/
def empty {T : Type} : CountMap T := ⟨[]⟩

/-- Modelled from the spec: `update(t, delta)` records a pending change. -/
def update {T : Type} (m : CountMap T) (t : T) (delta : Int) : CountMap T :=
  ⟨m.updates ++ [(t, delta)]⟩

/-- Modelled from the spec: `drain_into` atomically moves all pending entries
out of the source ledger into the destination, leaving the source empty.
Returns (drained source, enlarged destination). -/
def drain_into {T : Type} (src dst : CountMap T) : CountMap T × CountMap T :=
  (⟨[]⟩, ⟨dst.updates ++ src.updates⟩)

/-- The net signed count a ledger holds for a timestamp: the sum of all its
deltas at that timestamp. -/
def count {T : Type} [DecidableEq T] (m : CountMap T) (t : T) : Int :=
  ((m.updates.filter (fun p => decide (p.1 = t))).map Prod.snd).sum

theorem count_update {T : Type} [DecidableEq T] (m : CountMap T) (t : T)
    (delta : Int) (u : T) :
    (m.update t delta).count u = m.count u + (if t = u then delta else 0) := by
  simp only [count, update, List.filter_append, List.map_append, List.sum_append]
  by_cases h : t = u <;> simp [h]

theorem count_empty {T : Type} [DecidableEq T] (t : T) :
    (empty : CountMap T).count t = 0 := rfl

end CountMap

/-- Modelled from the spec: the terminal fan-out sink
(`dataflow::channels::pushers::Tee`, not under `src/`).  The consumers
registered behind the fan-out are abstracted as a log of every slot pushed
into it, in order (`none` = end-of-stream). -/
structure Tee (T : Type) (D : Type) where
  log : List (Option (Bundle T D))
deriving DecidableEq, Repr

/-- Modelled from the spec: pushing into the fan-out delivers the slot to all
registered consumers; we record it in the log. -/
def Tee.push {T D : Type} (tee : Tee T D) (m : Option (Bundle T D)) : Tee T D :=
  ⟨tee.log ++ [m]⟩

/-- Modelled from the spec: the counting pusher
(`dataflow::channels::pushers::Counter`, not under `src/`): wraps a pushee `P`
so that every record bundle passing through is also recorded as a timestamp
delta in the shared `produced` ledger, then forwarded unchanged.  End-of-stream
slots are forwarded but not counted. -/
structure Counter (T : Type) (D : Type) (P : Type) where
  produced : CountMap T
  pushee : P
deriving DecidableEq, Repr

/-- Modelled from the spec: `Counter::push` counts `data.len()` at the
bundle's timestamp, then forwards the slot to the wrapped pushee (whose own
push function is passed explicitly, standing for the `Push` trait). -/
def Counter.push {T D P : Type} (pp : P → Option (Bundle T D) → P)
    (c : Counter T D P) (m : Option (Bundle T D)) : Counter T D P :=
  match m with
  | some msg =>
    { produced := c.produced.update msg.time (msg.data.length : Int),
      pushee := pp c.pushee m }
  | none => { c with pushee := pp c.pushee none }

/-- Modelled from the spec: `done()` on a pusher is `push(&mut None)`,
closing the current session. -/
def Counter.done {T D P : Type} (pp : P → Option (Bundle T D) → P)
    (c : Counter T D P) : Counter T D P :=
  Counter.push pp c none

namespace Feedback

/-- The feedback vertex, as an observer sitting behind the Handle's counting
pusher (`feedback.rs`, `struct Observer`): a `limit` timestamp, the loop
`summary`, and the fan-out counting pusher feeding the cycle's Stream. -/
structure Observer (T S D : Type) where
  limit : T
  summary : S
  targets : Counter T D (Tee T D)

/-- `Observer::push` (`feedback.rs` lines 80-97): for a data bundle, apply the
summary to its timestamp; if undefined, drop; if the advanced time is not
`less_equal` the limit, drop; otherwise forward the bundle, now carrying the
advanced timestamp, to `targets`.  An empty slot (end-of-stream) is always
forwarded. -/
def Observer.push {T S D : Type} (ops : TimestampOps T S) (o : Observer T S D)
    (message : Option (Bundle T D)) : Observer T S D :=
  match message with
  | some msg =>
    match ops.results_in o.summary msg.time with
    | some new_time =>
      if ops.less_equal new_time o.limit then
        { o with targets :=
            Counter.push Tee.push o.targets (some ⟨new_time, msg.data⟩) }
      else o
    | none => o
  | none => { o with targets := Counter.push Tee.push o.targets none }

/-- The Handle's internal pusher built by `loop_variable` (`feedback.rs`
lines 50-56): a counting pusher (whose `produced` ledger is the operator's
`consumed_messages`) wrapping the `Observer`, whose `targets` counter's
`produced` ledger is the operator's `produced_messages`. -/
def handle_target_push {T S D : Type} (ops : TimestampOps T S)
    (c : Counter T D (Observer T S D)) (m : Option (Bundle T D)) :
    Counter T D (Observer T S D) :=
  Counter.push (Observer.push ops) c m

/-- The freshly wired Handle target of `loop_variable`: empty consumed and
produced ledgers, empty fan-out log. -/
def loop_variable {T S D : Type} (limit : T) (summary : S) :
    Counter T D (Observer T S D) :=
  { produced := CountMap.empty,
    pushee :=
      { limit := limit, summary := summary,
        targets := { produced := CountMap.empty, pushee := ⟨[]⟩ } } }

/-- The scope that the progress tracker interacts with (`feedback.rs`,
`struct Operator`).  The `Rc<RefCell<...>>` ledgers shared with the two
counting pushers are embedded as owned state drained by
`pull_internal_progress`. -/
structure Operator (T S : Type) where
  consumed_messages : CountMap T
  produced_messages : CountMap T
  summary : S

/-- An antichain of path summaries (`progress::frontier::Antichain`), as used
by `get_internal_summary`. -/
structure Antichain (S : Type) where
  elements : List S
deriving DecidableEq, Repr

/-- `Antichain::from_elem`. -/
def Antichain.from_elem {S : Type} (s : S) : Antichain S := ⟨[s]⟩

/-- `Operate::inputs` for Feedback (`feedback.rs` line 145). -/
def Operator.inputs {T S : Type} (_op : Operator T S) : Nat := 1

/-- `Operate::outputs` for Feedback (`feedback.rs` line 146). -/
def Operator.outputs {T S : Type} (_op : Operator T S) : Nat := 1

/-- `Operate::get_internal_summary` for Feedback (`feedback.rs` lines
148-150): one input row holding, for the single output, the antichain of the
configured summary; and one empty initial frontier-delta batch. -/
def Operator.get_internal_summary {T S : Type} (op : Operator T S) :
    List (List (Antichain S)) × List (CountMap T) :=
  ([[Antichain.from_elem op.summary]], [CountMap.empty])

/-- `Operate::pull_internal_progress` for Feedback (`feedback.rs` lines
152-159): drains `consumed_messages` into `messages_consumed[0]` and
`produced_messages` into `messages_produced[0]`, leaves the frontier slot
alone, and returns `false`.  Result: (operator after draining, consumed slot,
frontier slot, produced slot, return value). -/
def Operator.pull_internal_progress {T S : Type} (op : Operator T S)
    (messages_consumed frontier_progress messages_produced : CountMap T) :
    Operator T S × CountMap T × CountMap T × CountMap T × Bool :=
  let c := op.consumed_messages.drain_into messages_consumed
  let p := op.produced_messages.drain_into messages_produced
  ({ op with consumed_messages := c.1, produced_messages := p.1 },
   c.2, frontier_progress, p.2, false)

end Feedback

/-- `Product<RootTimestamp, T>` (`progress::nested::product::Product` with the
root marker): the outer `RootTimestamp` is a unit tag carrying no information,
so only the inner timestamp is represented.  `RootTimestamp::new(t)` is
`ProductT.mk t`, and `x.inner` mirrors the Rust field access. -/
structure ProductT (T : Type) where
  inner : T
deriving DecidableEq, Repr

/-- `RootTimestamp::new`. -/
def RootTimestamp.new {T : Type} (t : T) : ProductT T := ⟨t⟩

/-- Modelled from the spec: `progress::frontier::MutableAntichain` (not under
`src/`): a mapping from timestamp to occupancy count, kept as the ordered
list of signed-delta updates ever applied. -/
structure MutableAntichain (T : Type) where
  occupancy : List (T × Int)
deriving DecidableEq, Repr

namespace MutableAntichain

/-- The cumulative occupancy this frontier holds for a timestamp. -/
def occ {T : Type} [DecidableEq T] (m : MutableAntichain T) (t : T) : Int :=
  ((m.occupancy.filter (fun p => decide (p.1 = t))).map Prod.snd).sum

/-- Modelled from the spec: `new_bottom(t0)` constructs a frontier already
holding exactly `t0` with occupancy 1. -/
def new_bottom {T : Type} (t0 : T) : MutableAntichain T := ⟨[(t0, 1)]⟩

/-- Modelled from the spec: `update_weight(t, delta, ledger)` updates the
occupancy for `t`; if the occupancy transitions to/from zero (so the minimal
antichain of occupied times changes at `t`), the equivalent frontier delta is
appended to the ledger.  Returns (updated frontier, updated ledger). -/
def update_weight {T : Type} [DecidableEq T] (m : MutableAntichain T) (t : T)
    (delta : Int) (ledger : CountMap T) : MutableAntichain T × CountMap T :=
  let old := m.occ t
  let new := old + delta
  let frontier : MutableAntichain T := ⟨m.occupancy ++ [(t, delta)]⟩
  if 0 < old ∧ new ≤ 0 then (frontier, ledger.update t (-1))
  else if old ≤ 0 ∧ 0 < new then (frontier, ledger.update t 1)
  else (frontier, ledger)

/-- Modelled from the spec: `elements()` is the minimal antichain of
timestamps with positive occupancy.  The order on `ProductT T` is the order
on the inner timestamp (the root marker is trivial). -/
def elements {T : Type} [LinearOrder T] (m : MutableAntichain (ProductT T)) :
    List (ProductT T) :=
  let occupied := ((m.occupancy.map Prod.fst).dedup).filter
    (fun t => decide (0 < m.occ t))
  occupied.filter (fun t => decide (∀ s ∈ occupied, ¬ s.inner < t.inner))

theorem occ_append {T : Type} [DecidableEq T] (m : MutableAntichain T)
    (t : T) (delta : Int) (u : T) :
    (MutableAntichain.mk (m.occupancy ++ [(t, delta)])).occ u
      = m.occ u + (if t = u then delta else 0) := by
  simp only [occ, List.filter_append, List.map_append, List.sum_append]
  by_cases h : t = u <;> simp [h]

end MutableAntichain

namespace Input

/-- The Input Handle (`input.rs`, `struct Handle`): the frontier of times
available for sending, the "times closed since last asked" ledger shared with
the backing operator, the counting pusher feeding the Stream's fan-out, the
bounded record buffer (whose Rust `Vec` capacity is the explicit `capacity`
field), and the current epoch `now_at`. -/
structure Handle (T : Type) (D : Type) where
  frontier : MutableAntichain (ProductT T)
  progress : CountMap (ProductT T)
  pusher : Counter (ProductT T) D (Tee (ProductT T) D)
  buffer : List D
  capacity : Nat
  now_at : ProductT T

/-- `Handle::new` (`input.rs` lines 136-144): fresh frontier holding the
bottom (default) timestamp, empty ledger, empty buffer with the given
capacity (Rust uses `Content::<D>::default_length()`), epoch at bottom. -/
def Handle.new {T D : Type} [Inhabited T] (capacity : Nat) : Handle T D :=
  { frontier := MutableAntichain.new_bottom ⟨default⟩
    progress := CountMap.empty
    pusher := { produced := CountMap.empty, pushee := ⟨[]⟩ }
    buffer := []
    capacity := capacity
    now_at := ⟨default⟩ }

/-- `Handle::flush` (`input.rs` lines 147-149), with
`Content::push_at` modelled from the spec (its file is not under `src/`):
pushes the buffered records as one bundle at the current epoch through the
counting pusher, leaving the buffer empty. -/
def Handle.flush {T D : Type} (h : Handle T D) : Handle T D :=
  { h with
    buffer := []
    pusher := Counter.push Tee.push h.pusher (some ⟨h.now_at, h.buffer⟩) }

/-- `Handle::close_epoch` (`input.rs` lines 152-156): flushes if the buffer
is non-empty, closes the pusher session (`done()`), and releases the
frontier's hold on the current epoch (delta −1) into the progress ledger. -/
def Handle.close_epoch {T D : Type} [DecidableEq T] (h : Handle T D) :
    Handle T D :=
  let h1 := if 0 < h.buffer.length then h.flush else h
  let h2 := { h1 with pusher := Counter.done Tee.push h1.pusher }
  let fp := h2.frontier.update_weight h2.now_at (-1) h2.progress
  { h2 with frontier := fp.1, progress := fp.2 }

/-- `Handle::send` (`input.rs` lines 160-166): appends to the buffer,
auto-flushing when the buffer reaches its capacity. -/
def Handle.send {T D : Type} (h : Handle T D) (data : D) : Handle T D :=
  let h1 := { h with buffer := h.buffer ++ [data] }
  if h1.buffer.length = h1.capacity then h1.flush else h1

/-- A sequence of `send` calls. -/
def Handle.sendMany {T D : Type} (h : Handle T D) (ds : List D) : Handle T D :=
  ds.foldl Handle.send h

/-- `Handle::advance_to` (`input.rs` lines 172-177): the
`assert!(next > self.now_at.inner)` is embedded as `Option` — `none` is the
aborted (panicking) call.  On success: close the old epoch, adopt
`RootTimestamp::new(next)` as current, and acquire a frontier hold on it
(delta +1) into the progress ledger. -/
def Handle.advance_to {T D : Type} [LinearOrder T] (h : Handle T D)
    (next : T) : Option (Handle T D) :=
  if h.now_at.inner < next then
    let h1 := h.close_epoch
    let h2 := { h1 with now_at := RootTimestamp.new next }
    let fp := h2.frontier.update_weight h2.now_at 1 h2.progress
    some { h2 with frontier := fp.1, progress := fp.2 }
  else none

/-- `Handle::epoch` (`input.rs` lines 186-188). -/
def Handle.epoch {T D : Type} (h : Handle T D) : T :=
  h.now_at.inner

/-- `Drop for Handle` (`input.rs` lines 191-195): dropping the handle runs
`close_epoch`. -/
def Handle.drop {T D : Type} [DecidableEq T] (h : Handle T D) : Handle T D :=
  h.close_epoch

/-- `Handle::close` (`input.rs` line 183): `pub fn close(self) { }` consumes
the handle, whose effect is exactly the destructor's (`Handle.drop`). -/
def Handle.close {T D : Type} [DecidableEq T] (h : Handle T D) : Handle T D :=
  h.drop

/-- The reachable-state invariant of an Input Handle's frontier: it holds
exactly one hold, on the current epoch (established by `Handle.new`,
preserved by `send` and `advance_to`; the handle is consumed before any
further use once dropped or closed). -/
def Handle.good {T D : Type} [DecidableEq T] (h : Handle T D) : Prop :=
  ∀ u : ProductT T, h.frontier.occ u = if u = h.now_at then 1 else 0

/-- The backing Input operator (`input.rs`, `struct Operator`): shares (via
`Rc<RefCell<...>>`) the Handle's frontier and progress ledger and the
counting pusher's produced ledger; `copies` is the number of graph
replicas. -/
structure Operator (T : Type) where
  frontier : MutableAntichain (ProductT T)
  progress : CountMap (ProductT T)
  messages : CountMap (ProductT T)
  copies : Nat

/-- `Input::new_input` (`input.rs` lines 69-84): builds the Handle and the
backing operator, wiring the shared frontier, progress and produced-messages
state. -/
def new_input {T D : Type} [Inhabited T] (copies capacity : Nat) :
    Handle T D × Operator T :=
  let helper : Handle T D := Handle.new capacity
  (helper,
   { frontier := helper.frontier
     progress := helper.progress
     messages := helper.pusher.produced
     copies := copies })

/-- `Operate::inputs` for Input (`input.rs` line 96). -/
def Operator.inputs {T : Type} (_op : Operator T) : Nat := 0

/-- `Operate::outputs` for Input (`input.rs` line 97). -/
def Operator.outputs {T : Type} (_op : Operator T) : Nat := 1

/-- `Operate::get_internal_summary` for Input (`input.rs` lines 99-106):
no input-to-output path summaries (`Vec::new()`), and one initial
frontier-delta batch holding `copies` for each element of the frontier.
The (unused) summary type of the nested timestamp is taken as `Unit`. -/
def Operator.get_internal_summary {T : Type} [LinearOrder T]
    (op : Operator T) :
    List (List (Feedback.Antichain Unit)) × List (CountMap (ProductT T)) :=
  ([],
   [op.frontier.elements.foldl
      (fun map x => map.update x (op.copies : Int)) CountMap.empty])

/-- `Operate::pull_internal_progress` for Input (`input.rs` lines 108-115):
drains the produced-messages ledger into `messages_produced[0]` and the
progress ledger into `frontier_progress[0]`, leaves the consumed slot alone,
and returns `false`.  Result: (operator after draining, frontier slot,
consumed slot, produced slot, return value). -/
def Operator.pull_internal_progress {T : Type} (op : Operator T)
    (frontier_progress messages_consumed messages_produced :
      CountMap (ProductT T)) :
    Operator T × CountMap (ProductT T) × CountMap (ProductT T) ×
      CountMap (ProductT T) × Bool :=
  let m := op.messages.drain_into messages_produced
  let p := op.progress.drain_into frontier_progress
  ({ op with messages := m.1, progress := p.1 },
   p.2, messages_consumed, m.2, false)

end Input

/-! ### Helper lemmas -/

theorem Counter.push_some {T D P : Type} (pp : P → Option (Bundle T D) → P)
    (c : Counter T D P) (msg : Bundle T D) :
    Counter.push pp c (some msg)
      = { produced := c.produced.update msg.time (msg.data.length : Int),
          pushee := pp c.pushee (some msg) } := rfl

theorem Counter.push_none {T D P : Type} (pp : P → Option (Bundle T D) → P)
    (c : Counter T D P) :
    Counter.push pp c none = { c with pushee := pp c.pushee none } := rfl

theorem CountMap.drain_into_empty {T : Type} (dst : CountMap T) :
    CountMap.drain_into CountMap.empty dst = (CountMap.empty, dst) := by
  simp [CountMap.drain_into, CountMap.empty]

/-- Claim C8: for every state of the Feedback operator and of the Input
operator, `pull_internal_progress` returns `false`: the scheduler never needs
to keep invoking either operator. -/
theorem pull_internal_progress_returns_false {T S U : Type}
    (fop : Feedback.Operator T S) (c f p : CountMap T)
    (iop : Input.Operator U)
    (fr co pr : CountMap (ProductT U)) :
    (fop.pull_internal_progress c f p).2.2.2.2 = false ∧
    (iop.pull_internal_progress fr co pr).2.2.2.2 = false := by
  constructor <;> rfl

/-- Claim C9: for every Feedback operator configured with Summary `S`,
`get_internal_summary` returns exactly one internal-summary edge, from input
port 0 to output port 0, whose antichain contains precisely the configured
summary, together with an empty initial frontier-delta batch for its single
output. -/
theorem feedback_get_internal_summary_spec {T S : Type}
    (op : Feedback.Operator T S) :
    op.get_internal_summary
      = ([[Feedback.Antichain.from_elem op.summary]],
         [CountMap.empty]) ∧
    (op.get_internal_summary.1.length = op.inputs ∧
     ∀ row ∈ op.get_internal_summary.1, row.length = op.outputs ∧
       ∀ a ∈ row, a.elements = [op.summary]) ∧
    op.get_internal_summary.2.length = op.outputs ∧
    ∀ b ∈ op.get_internal_summary.2, b.updates = [] := by
  refine ⟨rfl, ⟨rfl, ?_⟩, rfl, ?_⟩
  · intro row hrow
    simp only [Feedback.Operator.get_internal_summary, List.mem_singleton] at hrow
    subst hrow
    exact ⟨rfl, by intro a ha; simpa [Feedback.Antichain.from_elem] using
      (by simpa using ha : a = Feedback.Antichain.from_elem op.summary) ▸ rfl⟩
  · intro b hb
    simp only [Feedback.Operator.get_internal_summary, List.mem_singleton] at hb
    subst hb
    rfl

/-- Claim C6: each `pull_internal_progress` call moves every pending entry of
the operator's own two internal ledgers (consumed and produced for Feedback;
frontier-hold changes and produced for Input) into exactly two of the three
caller-supplied slots, leaves the source ledgers empty, leaves the third
(unused) slot untouched, and a second call with no intervening Handle or
pusher activity adds nothing to any output slot. -/
theorem pull_internal_progress_drains_exactly_once {T S U : Type}
    (fop : Feedback.Operator T S) (c f p : CountMap T)
    (iop : Input.Operator U)
    (fr co pr : CountMap (ProductT U)) :
    ((fop.pull_internal_progress c f p).1.consumed_messages = CountMap.empty ∧
     (fop.pull_internal_progress c f p).1.produced_messages = CountMap.empty ∧
     (fop.pull_internal_progress c f p).2.1.updates
       = c.updates ++ fop.consumed_messages.updates ∧
     (fop.pull_internal_progress c f p).2.2.1 = f ∧
     (fop.pull_internal_progress c f p).2.2.2.1.updates
       = p.updates ++ fop.produced_messages.updates ∧
     ∀ c2 f2 p2 : CountMap T,
       (fop.pull_internal_progress c f p).1.pull_internal_progress c2 f2 p2
         = ((fop.pull_internal_progress c f p).1, c2, f2, p2, false)) ∧
    ((iop.pull_internal_progress fr co pr).1.progress = CountMap.empty ∧
     (iop.pull_internal_progress fr co pr).1.messages = CountMap.empty ∧
     (iop.pull_internal_progress fr co pr).2.1.updates
       = fr.updates ++ iop.progress.updates ∧
     (iop.pull_internal_progress fr co pr).2.2.1 = co ∧
     (iop.pull_internal_progress fr co pr).2.2.2.1.updates
       = pr.updates ++ iop.messages.updates ∧
     ∀ fr2 co2 pr2 : CountMap (ProductT U),
       (iop.pull_internal_progress fr co pr).1.pull_internal_progress
           fr2 co2 pr2
         = ((iop.pull_internal_progress fr co pr).1, fr2, co2, pr2, false)) := by
  constructor
  · refine ⟨rfl, rfl, rfl, rfl, rfl, ?_⟩
    intro c2 f2 p2
    simp [Feedback.Operator.pull_internal_progress, CountMap.drain_into,
      CountMap.empty]
  · refine ⟨rfl, rfl, rfl, rfl, rfl, ?_⟩
    intro fr2 co2 pr2
    simp [Input.Operator.pull_internal_progress, CountMap.drain_into,
      CountMap.empty]

/-- Concrete timestamp operations on `Nat` with summary `s` acting as `+ s`,
used to evaluate the generic theorems on concrete inputs. -/
def natOps : TimestampOps Nat Nat :=
  { less_equal := fun a b => decide (a ≤ b)
    results_in := fun s t => some (t + s) }

/-- Concrete timestamp operations on `Nat` whose summary is undefined
(`results_in` = `none`) above 10, exercising the dead-path case. -/
def natOpsCapped : TimestampOps Nat Nat :=
  { less_equal := fun a b => decide (a ≤ b)
    results_in := fun s t => if t + s ≤ 10 then some (t + s) else none }

/-- Claim C1: a data message with timestamp `t` pushed into the Feedback
Handle's internal pusher is dropped when `S.results_in(t)` is undefined, and
when the advanced time is not `<= limit`; otherwise it is forwarded to the
fan-out pusher carrying the advanced timestamp.  An end-of-stream slot is
always forwarded. -/
theorem feedback_push_policy {T S D : Type} (ops : TimestampOps T S)
    (c : Counter T D (Feedback.Observer T S D)) (t : T) (data : List D) :
    (ops.results_in c.pushee.summary t = none →
      (Feedback.handle_target_push ops c (some ⟨t, data⟩)).pushee
        = c.pushee) ∧
    (∀ t' : T, ops.results_in c.pushee.summary t = some t' →
      ops.less_equal t' c.pushee.limit = false →
      (Feedback.handle_target_push ops c (some ⟨t, data⟩)).pushee
        = c.pushee) ∧
    (∀ t' : T, ops.results_in c.pushee.summary t = some t' →
      ops.less_equal t' c.pushee.limit = true →
      (Feedback.handle_target_push ops c
          (some ⟨t, data⟩)).pushee.targets.pushee.log
        = c.pushee.targets.pushee.log ++ [some ⟨t', data⟩]) ∧
    (Feedback.handle_target_push ops c none).pushee.targets.pushee.log
      = c.pushee.targets.pushee.log ++ [none] := by
  refine ⟨?_, ?_, ?_, ?_⟩
  · intro hres
    simp [Feedback.handle_target_push, Counter.push_some,
      Feedback.Observer.push, hres]
  · intro t' hres hle
    simp [Feedback.handle_target_push, Counter.push_some,
      Feedback.Observer.push, hres, hle]
  · intro t' hres hle
    simp [Feedback.handle_target_push, Counter.push_some,
      Feedback.Observer.push, hres, hle, Tee.push]
  · simp [Feedback.handle_target_push, Counter.push_none,
      Feedback.Observer.push, Tee.push]

theorem feedback_push_policy_witness :
    ((Feedback.handle_target_push natOpsCapped
        (Feedback.loop_variable (D := Bool) 20 6) (some ⟨7, [true]⟩)).pushee
      = (Feedback.loop_variable (D := Bool) 20 6).pushee) ∧
    ((Feedback.handle_target_push natOps
        (Feedback.loop_variable (D := Bool) 3 1) (some ⟨3, [true]⟩)).pushee
      = (Feedback.loop_variable (D := Bool) 3 1).pushee) ∧
    ((Feedback.handle_target_push natOps
        (Feedback.loop_variable (D := Bool) 3 1)
        (some ⟨0, [true]⟩)).pushee.targets.pushee.log
      = (Feedback.loop_variable (D := Bool) 3
          1).pushee.targets.pushee.log ++ [some ⟨1, [true]⟩]) := by
  refine ⟨?_, ?_, ?_⟩
  · exact (feedback_push_policy natOpsCapped
      (Feedback.loop_variable 20 6) 7 [true]).1 (by decide)
  · exact (feedback_push_policy natOps
      (Feedback.loop_variable 3 1) 3 [true]).2.1 4 rfl (by decide)
  · exact (feedback_push_policy natOps
      (Feedback.loop_variable 3 1) 0 [true]).2.2.1 1 rfl (by decide)

/-- Claim C10: a data message with timestamp `t` and `r` records pushed into
the Feedback Handle adds `+r` at `t` to the consumed-messages ledger whether
or not it is subsequently dropped, while the produced-messages ledger gains
`+r` at the advanced timestamp only when the message is forwarded; a dropped
message is counted as consumed but never as produced. -/
theorem feedback_push_ledgers {T S D : Type} [DecidableEq T]
    (ops : TimestampOps T S) (c : Counter T D (Feedback.Observer T S D))
    (t : T) (data : List D) :
    (∀ u : T,
      (Feedback.handle_target_push ops c (some ⟨t, data⟩)).produced.count u
        = c.produced.count u
          + (if t = u then (data.length : Int) else 0)) ∧
    (∀ t' : T, ops.results_in c.pushee.summary t = some t' →
      ops.less_equal t' c.pushee.limit = true →
      ∀ u : T,
        (Feedback.handle_target_push ops c
            (some ⟨t, data⟩)).pushee.targets.produced.count u
          = c.pushee.targets.produced.count u
            + (if t' = u then (data.length : Int) else 0)) ∧
    (ops.results_in c.pushee.summary t = none →
      (Feedback.handle_target_push ops c
          (some ⟨t, data⟩)).pushee.targets.produced
        = c.pushee.targets.produced) ∧
    (∀ t' : T, ops.results_in c.pushee.summary t = some t' →
      ops.less_equal t' c.pushee.limit = false →
      (Feedback.handle_target_push ops c
          (some ⟨t, data⟩)).pushee.targets.produced
        = c.pushee.targets.produced) := by
  refine ⟨?_, ?_, ?_, ?_⟩
  · intro u
    simp [Feedback.handle_target_push, Counter.push_some,
      CountMap.count_update]
  · intro t' hres hle u
    simp [Feedback.handle_target_push, Counter.push_some,
      Feedback.Observer.push, hres, hle, CountMap.count_update]
  · intro hres
    simp [Feedback.handle_target_push, Counter.push_some,
      Feedback.Observer.push, hres]
  · intro t' hres hle
    simp [Feedback.handle_target_push, Counter.push_some,
      Feedback.Observer.push, hres, hle]

theorem feedback_push_ledgers_witness :
    ((Feedback.handle_target_push natOps
        (Feedback.loop_variable (D := Bool) 3 1)
        (some ⟨3, [true, false]⟩)).produced.count 3
      = (Feedback.loop_variable (D := Bool) 3 1).produced.count 3 + 2) ∧
    ((Feedback.handle_target_push natOps
        (Feedback.loop_variable (D := Bool) 3 1)
        (some ⟨0, [true, false]⟩)).pushee.targets.produced.count 1
      = (Feedback.loop_variable (D := Bool) 3
          1).pushee.targets.produced.count 1 + 2) ∧
    ((Feedback.handle_target_push natOps
        (Feedback.loop_variable (D := Bool) 3 1)
        (some ⟨3, [true, false]⟩)).pushee.targets.produced
      = (Feedback.loop_variable (D := Bool) 3 1).pushee.targets.produced) := by
  refine ⟨?_, ?_, ?_⟩
  · simpa using (feedback_push_ledgers natOps
      (Feedback.loop_variable 3 1) 3 [true, false]).1 3
  · simpa using (feedback_push_ledgers natOps
      (Feedback.loop_variable 3 1) 0 [true, false]).2.1 1 rfl (by decide) 1
  · exact (feedback_push_ledgers natOps
      (Feedback.loop_variable 3 1) 3 [true, false]).2.2.2 4 rfl (by decide)

/-- Claim C2: `advance_to(next)` fails (the `assert!` aborts the call,
embedded as `none`) whenever `next` is not strictly greater than the current
epoch, for any prior sequence of successful advances (any handle state); with
`next` strictly greater it succeeds. -/
theorem advance_to_epoch_monotonicity {T D : Type} [LinearOrder T]
    (h : Input.Handle T D) (next : T) :
    (¬ h.now_at.inner < next → h.advance_to next = none) ∧
    (h.now_at.inner < next → (h.advance_to next).isSome = true) := by
  constructor
  · intro hnot
    simp [Input.Handle.advance_to, hnot]
  · intro hlt
    simp [Input.Handle.advance_to, hlt]

theorem advance_to_epoch_monotonicity_witness :
    ((Input.Handle.new (T := Nat) (D := Bool) 4).advance_to 0 = none) ∧
    (((Input.Handle.new (T := Nat) (D := Bool) 4).advance_to 1).isSome
      = true) :=
  ⟨(advance_to_epoch_monotonicity (Input.Handle.new 4) 0).1 (by decide),
   (advance_to_epoch_monotonicity (Input.Handle.new 4) 1).2 (by decide)⟩

/-- Equality of products is determined by the inner timestamp; in
particular a strictly larger inner timestamp gives a different product. -/
theorem ProductT.ne_of_inner_lt {T : Type} [Preorder T] {u : ProductT T}
    {next : T} (hlt : u.inner < next) : ProductT.mk next ≠ u := by
  intro hc
  rw [← hc] at hlt
  exact lt_irrefl _ hlt

theorem RootTimestamp.new_eq {T : Type} (t : T) :
    RootTimestamp.new t = ProductT.mk t := rfl

/-- Characterization of `close_epoch` on any handle whose frontier holds
occupancy 1 on the current epoch (the reachable case): the buffer is flushed
(when non-empty) as one bundle at the current epoch, the session is closed
with an end-of-stream slot, and the frontier hold on the current epoch is
released, recording a −1 delta in the progress ledger. -/
theorem Input.Handle.close_epoch_eq {T D : Type} [DecidableEq T]
    (h : Input.Handle T D) (hocc : h.frontier.occ h.now_at = 1) :
    h.close_epoch =
      { frontier := ⟨h.frontier.occupancy ++ [(h.now_at, -1)]⟩
        progress := h.progress.update h.now_at (-1)
        pusher :=
          { produced :=
              if h.buffer.isEmpty then h.pusher.produced
              else h.pusher.produced.update h.now_at (h.buffer.length : Int)
            pushee :=
              ⟨h.pusher.pushee.log ++
                (if h.buffer.isEmpty then [none]
                 else [some ⟨h.now_at, h.buffer⟩, none])⟩ }
        buffer := []
        capacity := h.capacity
        now_at := h.now_at } := by
  have hw : MutableAntichain.update_weight h.frontier h.now_at (-1) h.progress
      = (⟨h.frontier.occupancy ++ [(h.now_at, -1)]⟩,
         h.progress.update h.now_at (-1)) := by
    simp only [MutableAntichain.update_weight, hocc]
    norm_num
  by_cases hb : h.buffer = []
  · simp [Input.Handle.close_epoch, hb, Counter.done, Counter.push_none,
      Tee.push, hw]
  · have hlen : 0 < h.buffer.length := List.length_pos.mpr hb
    simp [Input.Handle.close_epoch, hb, hlen, Input.Handle.flush,
      Counter.done, Counter.push_none, Counter.push_some, Tee.push, hw,
      List.isEmpty_iff]

/-- Characterization of a successful `advance_to` on a handle satisfying the
reachable-frontier invariant. -/
theorem Input.Handle.advance_to_eq {T D : Type} [LinearOrder T]
    (h : Input.Handle T D) (next : T) (hg : h.good)
    (hlt : h.now_at.inner < next) :
    h.advance_to next = some
      { frontier :=
          ⟨h.frontier.occupancy ++ [(h.now_at, -1), (⟨next⟩, 1)]⟩
        progress :=
          ⟨h.progress.updates ++ [(h.now_at, -1), (⟨next⟩, 1)]⟩
        pusher :=
          { produced :=
              if h.buffer.isEmpty then h.pusher.produced
              else h.pusher.produced.update h.now_at (h.buffer.length : Int)
            pushee :=
              ⟨h.pusher.pushee.log ++
                (if h.buffer.isEmpty then [none]
                 else [some ⟨h.now_at, h.buffer⟩, none])⟩ }
        buffer := []
        capacity := h.capacity
        now_at := ⟨next⟩ } := by
  have hocc1 : h.frontier.occ h.now_at = 1 := by simpa using hg h.now_at
  have hne : (ProductT.mk next) ≠ h.now_at := ProductT.ne_of_inner_lt hlt
  have hocc2 : (MutableAntichain.mk
      (h.frontier.occupancy ++ [(h.now_at, -1)])).occ (ProductT.mk next)
      = 0 := by
    rw [MutableAntichain.occ_append]
    have h2 := hg (ProductT.mk next)
    rw [if_neg hne] at h2
    rw [h2, if_neg (Ne.symm hne)]
    norm_num
  have hw2 : MutableAntichain.update_weight
      (⟨h.frontier.occupancy ++ [(h.now_at, -1)]⟩) (ProductT.mk next) 1
      (h.progress.update h.now_at (-1))
      = (⟨(h.frontier.occupancy ++ [(h.now_at, -1)]) ++ [(⟨next⟩, 1)]⟩,
         (h.progress.update h.now_at (-1)).update ⟨next⟩ 1) := by
    simp only [MutableAntichain.update_weight, hocc2]
    norm_num
  simp only [Input.Handle.advance_to]
  rw [if_pos hlt, Input.Handle.close_epoch_eq h hocc1]
  simp only [RootTimestamp.new_eq]
  rw [hw2]
  simp [CountMap.update, List.append_assoc]

/-- The frontier invariant holds for a fresh handle. -/
theorem Input.Handle.good_new {T D : Type} [Inhabited T] [DecidableEq T]
    (capacity : Nat) : (Input.Handle.new (T := T) (D := D) capacity).good := by
  intro u
  by_cases hu : u = (⟨default⟩ : ProductT T)
  · simp [Input.Handle.new, MutableAntichain.new_bottom,
      MutableAntichain.occ, List.filter_cons, hu]
  · have hne : ¬(⟨default⟩ : ProductT T) = u := fun hc => hu hc.symm
    simp [Input.Handle.new, MutableAntichain.new_bottom,
      MutableAntichain.occ, List.filter_cons, hu, hne]

/-- `send` touches neither the frontier nor the current epoch. -/
theorem Input.Handle.send_frontier_now_at {T D : Type}
    (h : Input.Handle T D) (d : D) :
    (h.send d).frontier = h.frontier ∧ (h.send d).now_at = h.now_at := by
  by_cases hc : h.buffer.length + 1 = h.capacity <;>
    simp [Input.Handle.send, Input.Handle.flush, hc]

/-- The frontier invariant is preserved by `send`. -/
theorem Input.Handle.good_send {T D : Type} [DecidableEq T]
    (h : Input.Handle T D) (d : D) (hg : h.good) : (h.send d).good := by
  intro u
  rw [(h.send_frontier_now_at d).1, (h.send_frontier_now_at d).2]
  exact hg u

/-- The frontier invariant is preserved by a successful `advance_to`. -/
theorem Input.Handle.good_advance_to {T D : Type} [LinearOrder T]
    (h : Input.Handle T D) (next : T) (h' : Input.Handle T D) (hg : h.good)
    (hadv : h.advance_to next = some h') : h'.good := by
  by_cases hlt : h.now_at.inner < next
  · rw [Input.Handle.advance_to_eq h next hg hlt] at hadv
    have hne : (ProductT.mk next) ≠ h.now_at := ProductT.ne_of_inner_lt hlt
    cases hadv
    intro u
    have hsplit : h.frontier.occupancy ++ [(h.now_at, -1), (⟨next⟩, 1)]
        = (h.frontier.occupancy ++ [(h.now_at, -1)])
            ++ [((⟨next⟩ : ProductT T), 1)] := by
      simp
    show (MutableAntichain.mk
      (h.frontier.occupancy ++ [(h.now_at, -1), (⟨next⟩, 1)])).occ u = _
    rw [hsplit,
      MutableAntichain.occ_append
        (MutableAntichain.mk (h.frontier.occupancy ++ [(h.now_at, -1)])),
      MutableAntichain.occ_append, hg u]
    by_cases hu : u = h.now_at
    · rw [if_pos hu, if_pos hu.symm, if_neg (hu ▸ hne),
        if_neg (fun hc => hne (hu ▸ hc.symm))]
      norm_num
    · by_cases hu2 : u = (⟨next⟩ : ProductT T)
      · rw [if_neg hu, if_neg (fun hc => hu hc.symm), if_pos hu2.symm,
          if_pos hu2]
        norm_num
      · rw [if_neg hu, if_neg (fun hc => hu hc.symm),
          if_neg (fun hc => hu2 hc.symm), if_neg hu2]
        norm_num
  · simp [Input.Handle.advance_to, hlt] at hadv

/-- Claim C3: a successful `advance_to(next)` on an Input Handle at epoch `e`
flushes the buffered records (if non-empty) as one bundle at epoch `e`,
closes the pusher session for `e` (end-of-stream slot), records a delta of
exactly −1 (not scaled by `copies`) on `e` and exactly +1 on `next` in the
frontier-hold ledger, and makes `next` the current epoch reported by
`epoch()`. -/
theorem advance_to_success_spec {T D : Type} [LinearOrder T]
    (h : Input.Handle T D) (next : T) (hg : h.good)
    (hlt : h.now_at.inner < next) :
    ∃ h' : Input.Handle T D,
      h.advance_to next = some h' ∧
      h'.pusher.pushee.log
        = h.pusher.pushee.log ++
          (if h.buffer.isEmpty then [none]
           else [some ⟨h.now_at, h.buffer⟩, none]) ∧
      h'.progress.updates
        = h.progress.updates ++ [(h.now_at, -1), (⟨next⟩, 1)] ∧
      h'.epoch = next ∧
      h'.buffer = [] := by
  refine ⟨_, Input.Handle.advance_to_eq h next hg hlt, rfl, rfl, rfl, rfl⟩

theorem advance_to_success_spec_witness :
    ∃ h' : Input.Handle Nat Bool,
      ((Input.Handle.new (T := Nat) (D := Bool) 4).send true).advance_to 2
        = some h' ∧
      h'.pusher.pushee.log
        = ((Input.Handle.new (T := Nat) (D := Bool) 4).send
            true).pusher.pushee.log ++
          (if ((Input.Handle.new (T := Nat) (D := Bool) 4).send
              true).buffer.isEmpty then [none]
           else [some ⟨((Input.Handle.new (T := Nat) (D := Bool) 4).send
                    true).now_at,
                  ((Input.Handle.new (T := Nat) (D := Bool) 4).send
                    true).buffer⟩, none]) ∧
      h'.progress.updates
        = ((Input.Handle.new (T := Nat) (D := Bool) 4).send
            true).progress.updates ++
          [(((Input.Handle.new (T := Nat) (D := Bool) 4).send
              true).now_at, -1), (⟨2⟩, 1)] ∧
      h'.epoch = 2 ∧
      h'.buffer = [] :=
  advance_to_success_spec ((Input.Handle.new 4).send true) 2
    (Input.Handle.good_send (Input.Handle.new 4) true
      (Input.Handle.good_new 4)) (by decide)

/-- Claim C5: destroying an Input Handle without an explicit `close()` still
releases its epoch hold: the drop path flushes any buffered records, closes
the pusher session, and records a −1 delta at the current epoch; and
`close(handle)` has exactly the same effect as dropping the handle. -/
theorem handle_drop_releases_hold {T D : Type} [DecidableEq T]
    (h : Input.Handle T D) (hg : h.good) :
    h.drop.buffer = [] ∧
    h.drop.pusher.pushee.log
      = h.pusher.pushee.log ++
        (if h.buffer.isEmpty then [none]
         else [some ⟨h.now_at, h.buffer⟩, none]) ∧
    h.drop.progress.updates = h.progress.updates ++ [(h.now_at, -1)] ∧
    Input.Handle.close h = h.drop := by
  have hocc : h.frontier.occ h.now_at = 1 := by simpa using hg h.now_at
  refine ⟨?_, ?_, ?_, rfl⟩ <;>
    simp [Input.Handle.drop, Input.Handle.close_epoch_eq h hocc,
      CountMap.update]

theorem handle_drop_releases_hold_witness :
    ((Input.Handle.new (T := Nat) (D := Bool) 4).send true).drop.buffer
      = [] ∧
    ((Input.Handle.new (T := Nat) (D := Bool) 4).send
        true).drop.pusher.pushee.log
      = ((Input.Handle.new (T := Nat) (D := Bool) 4).send
          true).pusher.pushee.log ++
        (if ((Input.Handle.new (T := Nat) (D := Bool) 4).send
            true).buffer.isEmpty then [none]
         else [some ⟨((Input.Handle.new (T := Nat) (D := Bool) 4).send
                  true).now_at,
                ((Input.Handle.new (T := Nat) (D := Bool) 4).send
                  true).buffer⟩, none]) ∧
    ((Input.Handle.new (T := Nat) (D := Bool) 4).send
        true).drop.progress.updates
      = ((Input.Handle.new (T := Nat) (D := Bool) 4).send
          true).progress.updates ++
        [(((Input.Handle.new (T := Nat) (D := Bool) 4).send
            true).now_at, -1)] ∧
    Input.Handle.close ((Input.Handle.new (T := Nat) (D := Bool) 4).send true)
      = ((Input.Handle.new (T := Nat) (D := Bool) 4).send true).drop :=
  handle_drop_releases_hold ((Input.Handle.new 4).send true)
    (Input.Handle.good_send (Input.Handle.new 4) true
      (Input.Handle.good_new 4))

/-- A sequence of sends that never brings the buffer up to capacity only
accumulates in the buffer; nothing reaches the pusher. -/
theorem Input.Handle.sendMany_no_flush {T D : Type} :
    ∀ (ds : List D) (h : Input.Handle T D),
      h.buffer.length + ds.length < h.capacity →
      h.sendMany ds = { h with buffer := h.buffer ++ ds } := by
  intro ds
  induction ds with
  | nil => intro h _; simp [Input.Handle.sendMany]
  | cons d rest ih =>
    intro h hlt
    simp only [List.length_cons] at hlt
    have hne : ¬(h.buffer.length + 1 = h.capacity) := by omega
    have hsend : h.send d = { h with buffer := h.buffer ++ [d] } := by
      simp [Input.Handle.send, hne]
    simp only [Input.Handle.sendMany, List.foldl_cons]
    rw [hsend]
    have hrec := ih { h with buffer := h.buffer ++ [d] }
      (by simp; omega)
    rw [show List.foldl Input.Handle.send
        ({ h with buffer := h.buffer ++ [d] } : Input.Handle T D) rest
      = ({ h with buffer := h.buffer ++ [d] } :
          Input.Handle T D).sendMany rest from rfl, hrec]
    simp

/-- A sequence of sends that brings the buffer exactly up to capacity
triggers exactly one automatic flush, of the full buffer as one bundle at
the current epoch, and leaves the buffer empty. -/
theorem Input.Handle.sendMany_fill {T D : Type} :
    ∀ (ds : List D) (h : Input.Handle T D),
      h.buffer.length < h.capacity →
      h.buffer.length + ds.length = h.capacity →
      h.sendMany ds =
        { h with
          buffer := []
          pusher := Counter.push Tee.push h.pusher
            (some ⟨h.now_at, h.buffer ++ ds⟩) } := by
  intro ds
  induction ds with
  | nil =>
    intro h h1 h2
    simp only [List.length_nil] at h2
    omega
  | cons d rest ih =>
    intro h h1 h2
    simp only [List.length_cons] at h2
    by_cases hc : h.buffer.length + 1 = h.capacity
    · have hrest : rest = [] := by
        have : rest.length = 0 := by omega
        exact List.eq_nil_of_length_eq_zero this
      subst hrest
      have hsend : h.send d
          = ({ h with buffer := h.buffer ++ [d] } : Input.Handle T D).flush := by
        simp [Input.Handle.send, hc]
      simp only [Input.Handle.sendMany, List.foldl_cons, List.foldl_nil]
      rw [hsend]
      simp [Input.Handle.flush]
    · have hsend : h.send d = { h with buffer := h.buffer ++ [d] } := by
        simp [Input.Handle.send, hc]
      simp only [Input.Handle.sendMany, List.foldl_cons]
      rw [hsend]
      have hrec := ih { h with buffer := h.buffer ++ [d] }
        (by simp; omega) (by simp; omega)
      rw [show List.foldl Input.Handle.send
          ({ h with buffer := h.buffer ++ [d] } : Input.Handle T D) rest
        = ({ h with buffer := h.buffer ++ [d] } :
            Input.Handle T D).sendMany rest from rfl, hrec]
      simp

/-- Counterexample to claim C7 as stated: the claim quantifies over every
Input Handle at epoch `e`, but a handle that already buffers one record
(reached from a fresh capacity-2 handle by one `send`) violates it: a
sequence of exactly `capacity` (= 2) further sends leaves one buffered
record, not zero, and already a shorter sequence (one send) pushes a
bundle. -/
theorem input_send_capacity_counterexample :
    ¬(((((Input.Handle.new (T := Nat) (D := Bool) 2).send true).sendMany
          [true, true]).buffer = []) ∧
      ((((Input.Handle.new (T := Nat) (D := Bool) 2).send true).sendMany
          [true]).pusher.pushee.log
        = ((Input.Handle.new (T := Nat) (D := Bool) 2).send
            true).pusher.pushee.log)) := by
  decide

/-- Claim C7 (amended): for every Input Handle at epoch `e` whose buffer is
empty and whose capacity is positive, a sequence of exactly `capacity` send
calls (with no `advance_to`) triggers exactly one automatic flush, pushing
one bundle of `capacity` records at epoch `e` (also counted once in the
produced ledger) and leaving zero buffered records; any shorter sequence
pushes nothing. -/
theorem input_send_capacity_flush {T D : Type} (h : Input.Handle T D)
    (ds : List D) (hbuf : h.buffer = []) (hcap : 0 < h.capacity) :
    (ds.length = h.capacity →
      (h.sendMany ds).buffer = [] ∧
      (h.sendMany ds).pusher.pushee.log
        = h.pusher.pushee.log ++ [some ⟨h.now_at, ds⟩] ∧
      (h.sendMany ds).pusher.produced.updates
        = h.pusher.produced.updates ++ [(h.now_at, (ds.length : Int))] ∧
      (h.sendMany ds).now_at = h.now_at) ∧
    (ds.length < h.capacity →
      (h.sendMany ds).pusher = h.pusher ∧ (h.sendMany ds).buffer = ds) := by
  constructor
  · intro hlen
    rw [Input.Handle.sendMany_fill ds h (by rw [hbuf]; simpa using hcap)
      (by rw [hbuf]; simpa using hlen)]
    rw [hbuf]
    simp [Counter.push_some, Tee.push, CountMap.update]
  · intro hlt
    rw [Input.Handle.sendMany_no_flush ds h (by rw [hbuf]; simpa using hlt)]
    rw [hbuf]
    simp

theorem input_send_capacity_flush_witness :
    (((Input.Handle.new (T := Nat) (D := Bool) 2).sendMany
        [true, false]).buffer = [] ∧
     ((Input.Handle.new (T := Nat) (D := Bool) 2).sendMany
        [true, false]).pusher.pushee.log
       = (Input.Handle.new (T := Nat) (D := Bool) 2).pusher.pushee.log ++
         [some ⟨(Input.Handle.new (T := Nat) (D := Bool) 2).now_at,
            [true, false]⟩]) ∧
    (((Input.Handle.new (T := Nat) (D := Bool) 2).sendMany [true]).pusher
       = (Input.Handle.new (T := Nat) (D := Bool) 2).pusher ∧
     ((Input.Handle.new (T := Nat) (D := Bool) 2).sendMany [true]).buffer
       = [true]) := by
  refine ⟨?_, ?_⟩
  · have := (input_send_capacity_flush (Input.Handle.new (T := Nat)
      (D := Bool) 2) [true, false] rfl (by decide)).1 (by decide)
    exact ⟨this.1, this.2.1⟩
  · exact (input_send_capacity_flush (Input.Handle.new (T := Nat)
      (D := Bool) 2) [true] rfl (by decide)).2 (by decide)

/-- The minimal antichain of a fresh bottom frontier is exactly the bottom
timestamp. -/
theorem MutableAntichain.elements_new_bottom {T : Type} [LinearOrder T]
    (t0 : ProductT T) :
    (MutableAntichain.new_bottom t0).elements = [t0] := by
  simp [MutableAntichain.elements, MutableAntichain.new_bottom,
    MutableAntichain.occ, List.filter_cons, List.dedup_cons_of_not_mem]

/-- Claim C4: an Input operator constructed with `copies = k`, before any
send or advance, reports no input-to-output path summaries (it declares zero
inputs and one output) and an initial frontier delta of exactly `k` at the
bottom (default) timestamp. -/
theorem input_get_internal_summary_initial {T D : Type} [Inhabited T]
    [LinearOrder T] (copies capacity : Nat) :
    ((Input.new_input (T := T) (D := D) copies capacity).2.inputs = 0) ∧
    ((Input.new_input (T := T) (D := D) copies capacity).2.outputs = 1) ∧
    ((Input.new_input (T := T) (D := D) copies
        capacity).2.get_internal_summary.1 = []) ∧
    ((Input.new_input (T := T) (D := D) copies
        capacity).2.get_internal_summary.2
      = [CountMap.empty.update (⟨default⟩ : ProductT T) (copies : Int)]) := by
  refine ⟨rfl, rfl, rfl, ?_⟩
  simp [Input.new_input, Input.Handle.new,
    Input.Operator.get_internal_summary,
    MutableAntichain.elements_new_bottom]

theorem feedback_get_internal_summary_spec_witness :
    ((Feedback.Operator.mk (CountMap.empty : CountMap Nat)
        CountMap.empty (5 : Nat)).get_internal_summary.1.length = 1) ∧
    (([Feedback.Antichain.from_elem (5 : Nat)]).length = 1 ∧
     (Feedback.Antichain.from_elem (5 : Nat)).elements = [5]) := by
  refine ⟨?_, ?_, ?_⟩
  · exact (feedback_get_internal_summary_spec
      (Feedback.Operator.mk CountMap.empty CountMap.empty 5)).2.1.1.symm ▸ rfl
  · exact ((feedback_get_internal_summary_spec
      (Feedback.Operator.mk (CountMap.empty : CountMap Nat)
        CountMap.empty (5 : Nat))).2.1.2
      [Feedback.Antichain.from_elem 5] (by decide)).1
  · exact ((feedback_get_internal_summary_spec
      (Feedback.Operator.mk (CountMap.empty : CountMap Nat)
        CountMap.empty (5 : Nat))).2.1.2
      [Feedback.Antichain.from_elem 5] (by decide)).2
      (Feedback.Antichain.from_elem 5) (by decide)

end Timely
